import Mathlib

/-!
Verification development for the ontology-msaez knowledge-graph engine
(Zero-base SDD): impact analysis, selective regeneration, dirty marking,
change detection, run tracking, and the frontend model-modifier store.

Pure parts of the repository (the `determine_phase_sequence` snippet, the
Vue `modelModifier` store) are embedded directly from their sources.  The
core Python engine (ImpactAnalyzer, UpsertManager, ChangeLogger, run
tracking) is not part of the source tree; those components are modelled
from the specification, as flagged in the individual doc comments.
-/

namespace SddGraph

/-- Node kinds (Neo4j labels) of the knowledge graph, from `spec/spec-v1.md`:
requirement kinds Epic / UserStory / AcceptanceCriterion, domain kinds
BoundedContext / Aggregate / Entity / ValueObject / Field, behavior kinds
Command / Event / Policy. -/
inductive NodeKind where
  | epic
  | userStory
  | acceptanceCriterion
  | boundedContext
  | aggregate
  | entity
  | valueObject
  | field
  | command
  | event
  | policy
deriving DecidableEq, Repr

/-- Modelled from the spec: the property graph consumed by the Impact
Analyzer (the Python `impact.py` module is not in the source tree).  Edges
are the relationship types installed by `cypher/schema-init.cypher` and
`spec/spec-v1.md` §2: structural containment (`HAS_STORY`, `HAS_CRITERION`,
`HAS_AGGREGATE`, `HAS_ENTITY`, `HAS_VALUE_OBJECT`, `HAS_FIELD`), trace
relationships (`IMPACTS_AGGREGATE`, `IMPACTS_FIELD`, `COVERS_COMMAND`,
`COVERS_EVENT`) and the event chain (`HANDLES_COMMAND`, `EMITS_EVENT`,
`LISTENS_EVENT` stored policy-to-event as in the schema, `TRIGGERS_COMMAND`,
`AFFECTS_AGGREGATE`).  Every edge list holds (source id, target id) pairs. -/
structure ImpactGraph where
  nodes : List (String × NodeKind)
  hasStory : List (String × String)
  hasCriterion : List (String × String)
  hasAggregate : List (String × String)
  hasEntity : List (String × String)
  hasValueObject : List (String × String)
  hasField : List (String × String)
  impactsAggregate : List (String × String)
  impactsField : List (String × String)
  coversCommand : List (String × String)
  coversEvent : List (String × String)
  handlesCommand : List (String × String)
  emitsEvent : List (String × String)
  listensEvent : List (String × String)
  triggersCommand : List (String × String)
  affectsAggregate : List (String × String)

/-- Targets of the edges of `edges` leaving `id`. -/
def targetsOf (edges : List (String × String)) (id : String) : List String :=
  (edges.filter (fun e => e.fst = id)).map (·.snd)

/-- Sources of the edges of `edges` entering `id` (used to walk
`LISTENS_EVENT` from the event to the listening policy). -/
def sourcesOf (edges : List (String × String)) (id : String) : List String :=
  (edges.filter (fun e => e.snd = id)).map (·.fst)

/-- Modelled from the spec: one traversal hop of `findImpact` (§4.4),
following the three relationship classes — structural containment, trace
relationships and event-chain relationships.  `LISTENS_EVENT` is walked
from the event to the policy ("Event —listened-by→ Policy"); the
`AFFECTS_AGGREGATE` leg is handled separately. -/
def succs (g : ImpactGraph) (id : String) : List String :=
  targetsOf g.hasStory id ++ targetsOf g.hasCriterion id ++
  targetsOf g.hasAggregate id ++ targetsOf g.hasEntity id ++
  targetsOf g.hasValueObject id ++ targetsOf g.hasField id ++
  targetsOf g.impactsAggregate id ++ targetsOf g.impactsField id ++
  targetsOf g.coversCommand id ++ targetsOf g.coversEvent id ++
  targetsOf g.handlesCommand id ++ targetsOf g.emitsEvent id ++
  sourcesOf g.listensEvent id ++ targetsOf g.triggersCommand id

/-- Fold the candidate list into the visited set, collecting the genuinely
new identifiers: the `visited` set of §4.4 that deduplicates the output and
cuts cycles. -/
def addNew : List String → List String → List String → List String × List String
  | [], visited, fresh => (visited, fresh)
  | n :: rest, visited, fresh =>
      if n ∈ visited then addNew rest visited fresh
      else addNew rest (n :: visited) (n :: fresh)

/-- Modelled from the spec: the bounded breadth-first loop of `findImpact`
(§4.4).  Each iteration consumes one hop of the `maxHops` budget, so the
recursion is structural in the hop budget and terminates on any graph,
cyclic event chains included. -/
def bfsLoop (g : ImpactGraph) : Nat → List String → List String → List String
  | 0, _, visited => visited
  | h + 1, frontier, visited =>
      let p := addNew (frontier.flatMap (succs g)) visited []
      bfsLoop g h p.snd p.fst

/-- Identifiers visited by the bounded traversal from `roots` (§4.4): the
roots themselves plus every node within `maxHops` hops. -/
def impactVisited (g : ImpactGraph) (roots : List String) (maxHops : Nat) : List String :=
  let p := addNew roots [] []
  bfsLoop g maxHops p.snd p.fst

/-- Kind of the node `id` in graph `g` (label lookup). -/
def kindOf (g : ImpactGraph) (id : String) : Option NodeKind :=
  (g.nodes.find? (fun p => p.fst = id)).map (·.snd)

/-- Byte-wise comparison of characters, used for the sorted output lists. -/
def charLeb (a b : Char) : Bool := a.toNat ≤ b.toNat

/-- Lexicographic comparison of character lists. -/
def listCharLeb : List Char → List Char → Bool
  | [], _ => true
  | _ :: _, [] => false
  | a :: as, b :: bs => if a = b then listCharLeb as bs else charLeb a b

/-- Lexicographic comparison of identifiers. -/
def strLeb (a b : String) : Bool := listCharLeb a.data b.data

/-- Insert an identifier into a sorted list. -/
def sInsert (x : String) : List String → List String
  | [] => [x]
  | y :: ys => if strLeb x y then x :: y :: ys else y :: sInsert x ys

/-- Insertion sort for the sorted, de-duplicated output lists of §4.4. -/
def sortStr : List String → List String
  | [] => []
  | x :: xs => sInsert x (sortStr xs)

/-- Result of `findImpact`: impacted identifiers grouped by kind as in the
standard output of the v1.1 impact spec (§3.2.2), plus the separate
`affected_aggregates` set for the `AFFECTS_AGGREGATE` terminal leg. -/
structure ImpactResult where
  aggregates : List String
  fields : List String
  commands : List String
  events : List String
  policies : List String
  affectedAggregates : List String
deriving DecidableEq, Repr

/-- Visited identifiers of kind `k`, sorted. -/
def idsOfKind (g : ImpactGraph) (visited : List String) (k : NodeKind) : List String :=
  sortStr (visited.filter (fun id => kindOf g id = some k))

/-- Modelled from the spec: `findImpact(rootIds, maxHops=3)` (§4.4, the
Python ImpactAnalyzer is not in the source tree).  Bounded breadth-first
traversal from the roots across the three relationship classes with a
visited set; the output groups impacted identifiers by kind as sorted,
de-duplicated lists.  The one exception to the uniform hop bound: whenever
a visited Event has an `AFFECTS_AGGREGATE` edge, the target Aggregate is
put in the separate `affected_aggregates` set regardless of hop budget. -/
def findImpact (g : ImpactGraph) (rootIds : List String) (maxHops : Nat := 3) : ImpactResult :=
  let visited := impactVisited g rootIds maxHops
  let affected :=
    (visited.filter (fun id => kindOf g id = some NodeKind.event)).flatMap
      (fun e => targetsOf g.affectsAggregate e)
  { aggregates := idsOfKind g visited NodeKind.aggregate
    fields := idsOfKind g visited NodeKind.field
    commands := idsOfKind g visited NodeKind.command
    events := idsOfKind g visited NodeKind.event
    policies := idsOfKind g visited NodeKind.policy
    affectedAggregates := sortStr affected.dedup }

/-- The v1.1 minimal test dataset of
`cypher/reset-and-load-test-data.cypher`: requirements EP_001 → US_001 →
AC_001, domain BC_ORDER with aggregates AGG_ORDER / AGG_STOCK and fields
F_ORDER_ID / F_ORDER_AMOUNT, trace links US_001→AGG_ORDER and
AC_001→F_ORDER_AMOUNT / CMD_PLACE_ORDER / EVT_ORDER_PLACED, and the event
chain AGG_ORDER→CMD_PLACE_ORDER→EVT_ORDER_PLACED→POL_RESERVE_STOCK→
CMD_RESERVE_STOCK with EVT_ORDER_PLACED affecting AGG_STOCK. -/
def testGraph : ImpactGraph where
  nodes :=
    [("EP_001", NodeKind.epic), ("US_001", NodeKind.userStory),
     ("AC_001", NodeKind.acceptanceCriterion), ("BC_ORDER", NodeKind.boundedContext),
     ("AGG_ORDER", NodeKind.aggregate), ("AGG_STOCK", NodeKind.aggregate),
     ("F_ORDER_AMOUNT", NodeKind.field), ("F_ORDER_ID", NodeKind.field),
     ("CMD_PLACE_ORDER", NodeKind.command), ("CMD_RESERVE_STOCK", NodeKind.command),
     ("EVT_ORDER_PLACED", NodeKind.event), ("POL_RESERVE_STOCK", NodeKind.policy)]
  hasStory := [("EP_001", "US_001")]
  hasCriterion := [("US_001", "AC_001")]
  hasAggregate := [("BC_ORDER", "AGG_ORDER"), ("BC_ORDER", "AGG_STOCK")]
  hasEntity := []
  hasValueObject := []
  hasField := [("AGG_ORDER", "F_ORDER_ID"), ("AGG_ORDER", "F_ORDER_AMOUNT")]
  impactsAggregate := [("US_001", "AGG_ORDER")]
  impactsField := [("AC_001", "F_ORDER_AMOUNT")]
  coversCommand := [("AC_001", "CMD_PLACE_ORDER")]
  coversEvent := [("AC_001", "EVT_ORDER_PLACED")]
  handlesCommand := [("AGG_ORDER", "CMD_PLACE_ORDER")]
  emitsEvent := [("CMD_PLACE_ORDER", "EVT_ORDER_PLACED")]
  listensEvent := [("POL_RESERVE_STOCK", "EVT_ORDER_PLACED")]
  triggersCommand := [("POL_RESERVE_STOCK", "CMD_RESERVE_STOCK")]
  affectsAggregate := [("EVT_ORDER_PLACED", "AGG_STOCK")]

/-! ### Properties of the visited set -/

theorem addNew_fst_nodup :
    ∀ (l visited fresh : List String), visited.Nodup → (addNew l visited fresh).fst.Nodup := by
  intro l
  induction l with
  | nil => intro visited fresh h; simpa [addNew] using h
  | cons n rest ih =>
      intro visited fresh h
      by_cases hn : n ∈ visited
      · simpa [addNew, hn] using ih visited fresh h
      · simpa [addNew, hn] using ih (n :: visited) (n :: fresh) (by simp [hn, h])

theorem addNew_fst_mem {x : String} :
    ∀ (l visited fresh : List String), x ∈ (addNew l visited fresh).fst →
      x ∈ visited ∨ x ∈ l := by
  intro l
  induction l with
  | nil => intro visited fresh h; simp [addNew] at h; exact Or.inl h
  | cons n rest ih =>
      intro visited fresh h
      by_cases hn : n ∈ visited
      · simp only [addNew, if_pos hn] at h
        rcases ih visited fresh h with h' | h'
        · exact Or.inl h'
        · exact Or.inr (List.mem_cons_of_mem _ h')
      · simp only [addNew, if_neg hn] at h
        rcases ih (n :: visited) (n :: fresh) h with h' | h'
        · rcases List.mem_cons.mp h' with h'' | h''
          · exact Or.inr (h'' ▸ List.mem_cons_self _ _)
          · exact Or.inl h''
        · exact Or.inr (List.mem_cons_of_mem _ h')

theorem addNew_snd_mem {x : String} :
    ∀ (l visited fresh : List String), x ∈ (addNew l visited fresh).snd →
      x ∈ fresh ∨ x ∈ l := by
  intro l
  induction l with
  | nil => intro visited fresh h; simp [addNew] at h; exact Or.inl h
  | cons n rest ih =>
      intro visited fresh h
      by_cases hn : n ∈ visited
      · simp only [addNew, if_pos hn] at h
        rcases ih visited fresh h with h' | h'
        · exact Or.inl h'
        · exact Or.inr (List.mem_cons_of_mem _ h')
      · simp only [addNew, if_neg hn] at h
        rcases ih (n :: visited) (n :: fresh) h with h' | h'
        · rcases List.mem_cons.mp h' with h'' | h''
          · exact Or.inr (h'' ▸ List.mem_cons_self _ _)
          · exact Or.inl h''
        · exact Or.inr (List.mem_cons_of_mem _ h')

theorem bfsLoop_nodup (g : ImpactGraph) :
    ∀ (h : Nat) (frontier visited : List String), visited.Nodup →
      (bfsLoop g h frontier visited).Nodup := by
  intro h
  induction h with
  | zero => intro frontier visited hv; simpa [bfsLoop] using hv
  | succ h ih =>
      intro frontier visited hv
      simp only [bfsLoop]
      exact ih _ _ (addNew_fst_nodup _ _ _ hv)

theorem impactVisited_nodup (g : ImpactGraph) (roots : List String) (maxHops : Nat) :
    (impactVisited g roots maxHops).Nodup := by
  unfold impactVisited
  exact bfsLoop_nodup g _ _ _ (addNew_fst_nodup _ _ _ List.nodup_nil)

/-! ### The sort used for output lists is a permutation -/

theorem sInsert_perm (x : String) : ∀ l : List String, (sInsert x l).Perm (x :: l) := by
  intro l
  induction l with
  | nil => simp [sInsert]
  | cons y ys ih =>
      by_cases h : strLeb x y
      · simp [sInsert, h]
      · simp only [sInsert, if_neg h]
        exact (ih.cons y).trans (List.Perm.swap x y ys)

theorem sortStr_perm : ∀ l : List String, (sortStr l).Perm l := by
  intro l
  induction l with
  | nil => simp [sortStr]
  | cons x xs ih =>
      simpa [sortStr] using (sInsert_perm x (sortStr xs)).trans (ih.cons x)

theorem sortStr_nodup {l : List String} (h : l.Nodup) : (sortStr l).Nodup :=
  ((sortStr_perm l).nodup_iff).mpr h

theorem mem_sortStr {x : String} {l : List String} : x ∈ sortStr l ↔ x ∈ l :=
  (sortStr_perm l).mem_iff

/-! ### Depth-bounded reachability -/

/-- `ReachWithin g roots n id`: `id` is reachable from some root in at most
`n` hops along the three traversal relationship classes of §4.4. -/
inductive ReachWithin (g : ImpactGraph) (roots : List String) : Nat → String → Prop where
  | root (n : Nat) (id : String) : id ∈ roots → ReachWithin g roots n id
  | step (n : Nat) (a b : String) :
      ReachWithin g roots n a → b ∈ succs g a → ReachWithin g roots (n + 1) b

theorem ReachWithin.succ {g : ImpactGraph} {roots : List String} {n : Nat} {x : String}
    (h : ReachWithin g roots n x) : ReachWithin g roots (n + 1) x := by
  induction h with
  | root n id hid => exact ReachWithin.root _ _ hid
  | step n a b _ hb ih => exact ReachWithin.step _ _ _ ih hb

theorem ReachWithin.mono {g : ImpactGraph} {roots : List String} {n m : Nat} {x : String}
    (h : ReachWithin g roots n x) (hnm : n ≤ m) : ReachWithin g roots m x := by
  induction m with
  | zero => exact Nat.le_zero.mp hnm ▸ h
  | succ m ih =>
      rcases Nat.lt_or_ge n (m + 1) with hlt | hge
      · exact (ih (Nat.lt_succ_iff.mp hlt)).succ
      · exact (Nat.le_antisymm hnm hge) ▸ h

theorem bfsLoop_reach (g : ImpactGraph) (roots : List String) (D : Nat) :
    ∀ (h : Nat) (frontier visited : List String), h ≤ D →
      (∀ x ∈ frontier, ReachWithin g roots (D - h) x) →
      (∀ x ∈ visited, ReachWithin g roots D x) →
      ∀ x ∈ bfsLoop g h frontier visited, ReachWithin g roots D x := by
  intro h
  induction h with
  | zero => intro frontier visited _ _ hv x hx; exact hv x (by simpa [bfsLoop] using hx)
  | succ h ih =>
      intro frontier visited hD hf hv x hx
      simp only [bfsLoop] at hx
      have hraw : ∀ y ∈ frontier.flatMap (succs g), ReachWithin g roots (D - h) y := by
        intro y hy
        rcases List.mem_flatMap.mp hy with ⟨a, ha, hya⟩
        have : ReachWithin g roots (D - (h + 1) + 1) y :=
          ReachWithin.step _ _ _ (hf a ha) hya
        have heq : D - (h + 1) + 1 = D - h := by omega
        exact heq ▸ this
      refine ih _ _ (Nat.le_of_succ_le hD) ?_ ?_ x hx
      · intro y hy
        rcases addNew_snd_mem _ _ _ hy with hyf | hyf
        · exact absurd hyf (List.not_mem_nil y)
        · exact hraw y hyf
      · intro y hy
        rcases addNew_fst_mem _ _ _ hy with hyf | hyf
        · exact hv y hyf
        · exact (hraw y hyf).mono (Nat.sub_le _ _)

theorem impactVisited_reach (g : ImpactGraph) (roots : List String) (maxHops : Nat) :
    ∀ x ∈ impactVisited g roots maxHops, ReachWithin g roots maxHops x := by
  unfold impactVisited
  intro x hx
  refine bfsLoop_reach g roots maxHops maxHops _ _ (Nat.le_refl _) ?_ ?_ x hx
  · intro y hy
    rcases addNew_snd_mem _ _ _ hy with hyf | hyf
    · exact absurd hyf (List.not_mem_nil y)
    · exact ReachWithin.root _ _ hyf
  · intro y hy
    rcases addNew_fst_mem _ _ _ hy with hyf | hyf
    · exact absurd hyf (List.not_mem_nil y)
    · exact ReachWithin.root _ _ hyf

/-! ### Claim theorems for the Impact Analyzer -/

/-- C1: for every root set and every `maxHops` bound, `findImpact` is a
total Lean function — its breadth-first loop recurses on the hop budget, so
it terminates on any graph, including graphs whose event-chain edges form a
cycle (Event→Policy→Command→Event of any length) — and every one of the six
returned output lists holds each node identifier at most once, no matter
how many distinct paths reach that node. -/
theorem findImpact_terminates_and_nodup (g : ImpactGraph) (rootIds : List String)
    (maxHops : Nat) :
    (findImpact g rootIds maxHops).aggregates.Nodup ∧
    (findImpact g rootIds maxHops).fields.Nodup ∧
    (findImpact g rootIds maxHops).commands.Nodup ∧
    (findImpact g rootIds maxHops).events.Nodup ∧
    (findImpact g rootIds maxHops).policies.Nodup ∧
    (findImpact g rootIds maxHops).affectedAggregates.Nodup := by
  have hv : (impactVisited g rootIds maxHops).Nodup := impactVisited_nodup g rootIds maxHops
  refine ⟨?_, ?_, ?_, ?_, ?_, ?_⟩ <;>
    first
      | exact sortStr_nodup (hv.filter _)
      | exact sortStr_nodup (List.nodup_dedup _)

/-- C2 (counterexample): on the v1.1 test dataset, `findImpact(["US_001"])`
with the default `maxHops = 3` does not return the output claimed by the
spec: the claimed `Field` list omits `F_ORDER_ID` (reachable through the
structural containment class in two hops) and the claimed `Command` list
contains `CMD_RESERVE_STOCK`, which lies four hops from `US_001` — beyond
the uniform three-hop budget. -/
theorem findImpact_testGraph_ne_spec :
    findImpact testGraph ["US_001"] 3 ≠
      { aggregates := ["AGG_ORDER"]
        fields := ["F_ORDER_AMOUNT"]
        commands := ["CMD_PLACE_ORDER", "CMD_RESERVE_STOCK"]
        events := ["EVT_ORDER_PLACED"]
        policies := ["POL_RESERVE_STOCK"]
        affectedAggregates := ["AGG_STOCK"] } := by
  decide

/-- C2 (amended): on the v1.1 test dataset, after the US_001 fingerprint
change selects US_001 as the root, `findImpact(["US_001"])` with the
default `maxHops = 3` returns Aggregate `[AGG_ORDER]`, Field
`[F_ORDER_AMOUNT, F_ORDER_ID]`, Command `[CMD_PLACE_ORDER]`, Event
`[EVT_ORDER_PLACED]`, Policy `[POL_RESERVE_STOCK]` and affected aggregates
`[AGG_STOCK]`. -/
theorem findImpact_testGraph_eq :
    findImpact testGraph ["US_001"] 3 =
      { aggregates := ["AGG_ORDER"]
        fields := ["F_ORDER_AMOUNT", "F_ORDER_ID"]
        commands := ["CMD_PLACE_ORDER"]
        events := ["EVT_ORDER_PLACED"]
        policies := ["POL_RESERVE_STOCK"]
        affectedAggregates := ["AGG_STOCK"] } := by
  decide

/-- C3: in every `findImpact` traversal and for every hop budget, whenever
a visited Event node has an `AFFECTS_AGGREGATE` edge, the target Aggregate
is in the separate `affected_aggregates` output — even when the hop budget
is already exhausted at that Event — and this leg is the only exception to
the hop bound: every identifier in the six by-kind output lists is
reachable from a root within `maxHops` hops. -/
theorem findImpact_affects_exception (g : ImpactGraph) (roots : List String) (maxHops : Nat) :
    (∀ evt agg, evt ∈ impactVisited g roots maxHops →
      kindOf g evt = some NodeKind.event → (evt, agg) ∈ g.affectsAggregate →
      agg ∈ (findImpact g roots maxHops).affectedAggregates) ∧
    (∀ x, (x ∈ (findImpact g roots maxHops).aggregates ∨
           x ∈ (findImpact g roots maxHops).fields ∨
           x ∈ (findImpact g roots maxHops).commands ∨
           x ∈ (findImpact g roots maxHops).events ∨
           x ∈ (findImpact g roots maxHops).policies) →
      ReachWithin g roots maxHops x) := by
  constructor
  · intro evt agg hvis hkind hedge
    show agg ∈ sortStr _
    rw [mem_sortStr, List.mem_dedup]
    refine List.mem_flatMap.mpr ⟨evt, List.mem_filter.mpr ⟨hvis, by simp [hkind]⟩, ?_⟩
    unfold targetsOf
    exact List.mem_map.mpr ⟨(evt, agg), List.mem_filter.mpr ⟨hedge, by simp⟩, rfl⟩
  · intro x hx
    have hvis : x ∈ impactVisited g roots maxHops := by
      rcases hx with h | h | h | h | h <;>
        exact (List.mem_filter.mp (mem_sortStr.mp h)).1
    exact impactVisited_reach g roots maxHops x hvis

/-- Witness for C3 at a concrete input: a graph with a single Event root
and a hop budget of zero — the budget is exhausted at the Event itself, yet
the affected Aggregate is reported. -/
theorem findImpact_affects_exception_witness :
    "AGG_W" ∈ (findImpact
      { nodes := [("EVT_W", NodeKind.event), ("AGG_W", NodeKind.aggregate)]
        hasStory := [], hasCriterion := [], hasAggregate := [], hasEntity := []
        hasValueObject := [], hasField := [], impactsAggregate := [], impactsField := []
        coversCommand := [], coversEvent := [], handlesCommand := [], emitsEvent := []
        listensEvent := [], triggersCommand := []
        affectsAggregate := [("EVT_W", "AGG_W")] } ["EVT_W"] 0).affectedAggregates :=
  (findImpact_affects_exception _ ["EVT_W"] 0).1 "EVT_W" "AGG_W"
    (by decide) (by decide) (by decide)

end SddGraph

namespace SddScope

/-- The Selective-Regeneration phase branch, embedded from the
`determine_phase_sequence` implementation in the v1.2 checklist (Phase 2.1):
phase "A" is the structural drafting phase, phase "B" the behavioral
event-storming phase.  The structural test looks only for `Aggregate` and
`Field` among the dirty labels; the behavioral test looks for `Command`,
`Event` and `Policy`. -/
def determine_phase_sequence (dirty_labels : List String) : List String :=
  let has_structure := ["Aggregate", "Field"].any (fun l => dirty_labels.contains l)
  let has_behavior := ["Command", "Event", "Policy"].any (fun l => dirty_labels.contains l)
  if has_structure && has_behavior then ["A", "B"]
  else if has_structure then ["A"]
  else if has_behavior then ["B"]
  else []

/-- C4 (counterexample): a dirty set containing only `BoundedContext` yields
the empty phase sequence, not the structural phase `["A"]` the claim
requires — the structural test of the code covers only `Aggregate` and `Field`,
not `BoundedContext`, `Entity` or `ValueObject`. -/
theorem determine_phase_sequence_boundedContext_empty :
    determine_phase_sequence ["BoundedContext"] = [] ∧
    determine_phase_sequence ["BoundedContext"] ≠ ["A"] := by
  decide

/-- C4 (amended): for every dirty label set, the phase sequence is
`["A", "B"]` exactly when a structural label (`Aggregate` or `Field`) and a
behavioral label (`Command`, `Event` or `Policy`) are both dirty, `["A"]`
exactly when only a structural label is dirty, `["B"]` exactly when only a
behavioral label is dirty, and `[]` otherwise — in particular for the empty
dirty set and for dirty sets holding only `BoundedContext`, `Entity` or
`ValueObject`. -/
theorem determine_phase_sequence_spec (d : List String) :
    (determine_phase_sequence d = ["A", "B"] ↔
      (("Aggregate" ∈ d ∨ "Field" ∈ d) ∧ ("Command" ∈ d ∨ "Event" ∈ d ∨ "Policy" ∈ d))) ∧
    (determine_phase_sequence d = ["A"] ↔
      (("Aggregate" ∈ d ∨ "Field" ∈ d) ∧ ¬("Command" ∈ d ∨ "Event" ∈ d ∨ "Policy" ∈ d))) ∧
    (determine_phase_sequence d = ["B"] ↔
      (¬("Aggregate" ∈ d ∨ "Field" ∈ d) ∧ ("Command" ∈ d ∨ "Event" ∈ d ∨ "Policy" ∈ d))) ∧
    (determine_phase_sequence d = [] ↔
      (¬("Aggregate" ∈ d ∨ "Field" ∈ d) ∧ ¬("Command" ∈ d ∨ "Event" ∈ d ∨ "Policy" ∈ d))) := by
  by_cases hS : "Aggregate" ∈ d ∨ "Field" ∈ d <;>
    by_cases hB : "Command" ∈ d ∨ "Event" ∈ d ∨ "Policy" ∈ d <;>
      simp [determine_phase_sequence, hS, hB]

/-- Witness for C4 (amended) at a concrete input: both a structural and a
behavioral label dirty gives the two-phase sequence. -/
theorem determine_phase_sequence_spec_witness :
    determine_phase_sequence ["Aggregate", "Command"] = ["A", "B"] :=
  (determine_phase_sequence_spec ["Aggregate", "Command"]).1.mpr
    ⟨Or.inl (by decide), Or.inl (by decide)⟩

end SddScope

namespace SddStore

open SddGraph (NodeKind)

/-- Modelled from the spec: the semantic payload handed to `upsert` (§4.2;
the Python UpsertManager is not in the source tree) — identifier, attribute
set and the optionally declared structural parent. -/
structure NodePayload where
  id : String
  attrs : List (String × String)
  parent : Option String
deriving DecidableEq, Repr

/-- Simple character-fold hash of a string. -/
def strHash (s : String) : Nat := s.data.foldl (fun h c => h * 31 + c.toNat) 7

/-- Hash of one attribute (name, value) pair. -/
def attrHash (a : String × String) : Nat := strHash a.fst * 131 + strHash a.snd

/-- Modelled from the spec: the content fingerprint (§4.3) — a pure function
of the payload content that is order-independent for the unordered attribute
set (a commutative sum of per-attribute hashes). -/
def fingerprint (p : NodePayload) : Nat := strHash p.id + (p.attrs.map attrHash).sum

/-- Modelled from the spec: the immutable Change record (§3, data model):
`{id, label, node_id, before_hash, after_hash, reason, at}`; `before_hash`
is absent for the first Change of a node. -/
structure ChangeRec where
  id : String
  label : NodeKind
  node_id : String
  before_hash : Option Nat
  after_hash : Nat
  reason : String
  at_time : Nat
deriving DecidableEq, Repr

/-- A stored node: label, identifier, attributes, recorded fingerprint and
the three co-mutated dirty fields, each individually optional as in a
property graph. -/
structure StoredNode where
  kind : NodeKind
  id : String
  attrs : List (String × String)
  fp : Nat
  dirty : Option Bool
  dirty_reason : Option String
  dirty_at : Option Nat
deriving DecidableEq, Repr

/-- The graph store state: nodes, structural containment edges
(parent id, child id) and the append-only Change log (most recent first). -/
structure GraphState where
  nodes : List StoredNode
  containment : List (String × String)
  changes : List ChangeRec
deriving DecidableEq, Repr

/-- Errors raised by the Upsert Manager. -/
inductive UpsertErr where
  | danglingReference
deriving DecidableEq, Repr

/-- Does a node with this identifier exist (global-unique id policy of
v1.1: lookups may omit the label)? -/
def hasNodeId (s : GraphState) (id : String) : Bool := s.nodes.any (fun n => n.id = id)

/-- Overwrite of one matching node during MERGE: attributes and fingerprint
replaced, identifier and dirty fields untouched. -/
def mergeNode (kind : NodeKind) (p : NodePayload) (n : StoredNode) : StoredNode :=
  if n.id = p.id then { n with kind := kind, attrs := p.attrs, fp := fingerprint p } else n

/-- MERGE of one node by identifier: overwrite attributes and fingerprint
when the id exists, append a fresh clean node otherwise. -/
def upsertNodeList (nodes : List StoredNode) (kind : NodeKind) (p : NodePayload) :
    List StoredNode :=
  if nodes.any (fun n => n.id = p.id) then
    nodes.map (mergeNode kind p)
  else
    nodes ++ [{ kind := kind, id := p.id, attrs := p.attrs, fp := fingerprint p,
                dirty := none, dirty_reason := none, dirty_at := none }]

/-- MERGE of one containment edge: created only if absent. -/
def addContainment (edges : List (String × String)) (parent child : String) :
    List (String × String) :=
  if (parent, child) ∈ edges then edges else edges ++ [(parent, child)]

/-- Modelled from the spec: `upsert(kind, payload)` (§4.2; the Python
UpsertManager is not in the source tree).  Deterministic create-or-update by
identifier: node attributes set or overwritten, the declared structural
containment edge created if absent, `DanglingReference` when the declared
parent identifier does not exist.  Change records and dirty fields are
never touched by upsert. -/
def upsert (s : GraphState) (kind : NodeKind) (p : NodePayload) : Except UpsertErr GraphState :=
  match p.parent with
  | none => .ok { s with nodes := upsertNodeList s.nodes kind p }
  | some pid =>
      if hasNodeId s pid then
        .ok { s with nodes := upsertNodeList s.nodes kind p,
                     containment := addContainment s.containment pid p.id }
      else .error .danglingReference

/-! ### Idempotence of the MERGE-based upsert -/

theorem mergeNode_id (kind : NodeKind) (p : NodePayload) (n : StoredNode) :
    (mergeNode kind p n).id = n.id := by
  unfold mergeNode; split <;> rfl

theorem mergeNode_dirty (kind : NodeKind) (p : NodePayload) (n : StoredNode) :
    (mergeNode kind p n).dirty = n.dirty := by
  unfold mergeNode; split <;> rfl

theorem mergeNode_idem (kind : NodeKind) (p : NodePayload) (n : StoredNode) :
    mergeNode kind p (mergeNode kind p n) = mergeNode kind p n := by
  unfold mergeNode
  by_cases h : n.id = p.id <;> simp [h]

theorem any_map_mergeNode (nodes : List StoredNode) (kind : NodeKind) (p : NodePayload)
    (q : String) :
    (nodes.map (mergeNode kind p)).any (fun n => n.id = q) =
      nodes.any (fun n => n.id = q) := by
  induction nodes with
  | nil => rfl
  | cons n rest ih => simp [List.any_cons, mergeNode_id, ih]

theorem upsertNodeList_any (nodes : List StoredNode) (kind : NodeKind) (p : NodePayload)
    (q : String) (h : nodes.any (fun n => n.id = q) = true) :
    (upsertNodeList nodes kind p).any (fun n => n.id = q) = true := by
  unfold upsertNodeList
  split
  · rw [any_map_mergeNode]; exact h
  · simp [List.any_append, h]

theorem upsertNodeList_self (nodes : List StoredNode) (kind : NodeKind) (p : NodePayload) :
    (upsertNodeList nodes kind p).any (fun n => n.id = p.id) = true := by
  unfold upsertNodeList
  split
  next h => rw [any_map_mergeNode]; exact h
  next h => simp [List.any_append]

theorem upsertNodeList_idem (nodes : List StoredNode) (kind : NodeKind) (p : NodePayload) :
    upsertNodeList (upsertNodeList nodes kind p) kind p = upsertNodeList nodes kind p := by
  have hself := upsertNodeList_self nodes kind p
  conv_lhs => rw [upsertNodeList]
  rw [if_pos hself]
  by_cases hA : nodes.any (fun n => n.id = p.id) = true
  · have hl : upsertNodeList nodes kind p = nodes.map (mergeNode kind p) := by
      rw [upsertNodeList, if_pos hA]
    rw [hl, List.map_map]
    exact List.map_congr_left (fun n _ => by simp [Function.comp, mergeNode_idem])
  · have hl : upsertNodeList nodes kind p =
        nodes ++ [{ kind := kind, id := p.id, attrs := p.attrs, fp := fingerprint p,
                    dirty := none, dirty_reason := none, dirty_at := none }] := by
      rw [upsertNodeList, if_neg hA]
    have hall : ∀ n ∈ nodes, ¬(n.id = p.id) := by
      intro n hn he
      exact hA (List.any_eq_true.mpr ⟨n, hn, by simp [he]⟩)
    rw [hl, List.map_append]
    congr 1
    · have hmap : nodes.map (mergeNode kind p) = nodes.map id :=
        List.map_congr_left (fun n hn => by simp [mergeNode, hall n hn])
      simpa using hmap
    · simp [mergeNode]

theorem upsertNodeList_dirty (nodes : List StoredNode) (kind : NodeKind) (p : NodePayload) :
    ∀ n' ∈ upsertNodeList nodes kind p, n'.dirty = some true →
      ∃ n ∈ nodes, n.id = n'.id ∧ n.dirty = some true := by
  unfold upsertNodeList
  split
  · intro n' hn' hd
    rcases List.mem_map.mp hn' with ⟨n, hn, rfl⟩
    exact ⟨n, hn, (mergeNode_id kind p n).symm, (mergeNode_dirty kind p n) ▸ hd⟩
  · intro n' hn' hd
    rcases List.mem_append.mp hn' with hn | hn
    · exact ⟨n', hn, rfl, hd⟩
    · simp at hn
      rw [hn] at hd
      simp at hd

theorem addContainment_idem (edges : List (String × String)) (a b : String) :
    addContainment (addContainment edges a b) a b = addContainment edges a b := by
  unfold addContainment
  by_cases h : (a, b) ∈ edges <;> simp [h]

/-- C5: re-running `upsert` with an unchanged payload is a no-op — the
second call succeeds and returns exactly the state produced by the first
call (no writes beyond the idempotent merge).  Moreover the first call
already produced no Change record, and any node dirty after the call was
dirty with the same identifier before it (no dirty marking and, since
attributes are unchanged, no fingerprint change on the second call follows
from the state equality). -/
theorem upsert_idem (s : GraphState) (kind : NodeKind) (p : NodePayload) (s' : GraphState)
    (h : upsert s kind p = Except.ok s') :
    upsert s' kind p = Except.ok s' ∧ s'.changes = s.changes ∧
      ∀ n' ∈ s'.nodes, n'.dirty = some true →
        ∃ n ∈ s.nodes, n.id = n'.id ∧ n.dirty = some true := by
  cases hp : p.parent with
  | none =>
      rw [upsert, hp] at h
      have hs' : s' = { s with nodes := upsertNodeList s.nodes kind p } :=
        (Except.ok.inj h).symm
      subst hs'
      refine ⟨?_, rfl, upsertNodeList_dirty s.nodes kind p⟩
      rw [upsert, hp]
      simp [upsertNodeList_idem]
  | some pid =>
      simp only [upsert, hp] at h
      by_cases hpid : hasNodeId s pid = true
      · rw [if_pos hpid] at h
        have hs' : s' = { s with nodes := upsertNodeList s.nodes kind p,
                                 containment := addContainment s.containment pid p.id } :=
          (Except.ok.inj h).symm
        subst hs'
        refine ⟨?_, rfl, upsertNodeList_dirty s.nodes kind p⟩
        have hpid' : (upsertNodeList s.nodes kind p).any (fun n => n.id = pid) = true :=
          upsertNodeList_any s.nodes kind p pid hpid
        simp only [upsert, hp, hasNodeId, hpid', if_true]
        simp [upsertNodeList_idem, addContainment_idem]
      · rw [if_neg hpid] at h
        exact absurd h (by simp)

/-- Empty store for the C5 witness. -/
def emptyState : GraphState := { nodes := [], containment := [], changes := [] }

/-- Payload for the C5 witness. -/
def witnessPayload : NodePayload :=
  { id := "AGG_ORDER", attrs := [("name", "Order")], parent := none }

/-- State after the first upsert of the C5 witness. -/
def onceState : GraphState :=
  { nodes := [{ kind := NodeKind.aggregate, id := "AGG_ORDER", attrs := [("name", "Order")],
                fp := fingerprint witnessPayload, dirty := none, dirty_reason := none,
                dirty_at := none }]
    containment := []
    changes := [] }

/-- Witness for C5 at a concrete input: upserting `AGG_ORDER` into the
empty store and then re-upserting the unchanged payload returns the same
state with an unchanged Change log. -/
theorem upsert_idem_witness :
    upsert onceState NodeKind.aggregate witnessPayload = Except.ok onceState ∧
      onceState.changes = emptyState.changes :=
  ⟨(upsert_idem emptyState NodeKind.aggregate witnessPayload onceState rfl).1,
   (upsert_idem emptyState NodeKind.aggregate witnessPayload onceState rfl).2.1⟩

/-! ### Change detection (v1.1 option A: Change nodes) -/

/-- Modelled from the spec: the most recently recorded fingerprint for
`(kind, id)` — the `after_hash` of the latest Change record of that node
(the Change log is kept most recent first), per v1.1 Change-detection
option A. -/
def lastRecordedFp (s : GraphState) (kind : NodeKind) (id : String) : Option Nat :=
  (s.changes.find? (fun c => c.label = kind ∧ c.node_id = id)).map (·.after_hash)

/-- Modelled from the spec: `detect(kind, id, payload)` (§4.3; the Python
ChangeLogger is not in the source tree).  Computes
`after_hash = fingerprint(payload)`, compares it with the most recently
recorded fingerprint, and either reports no change without writing, or
prepends a fresh immutable Change record `{before_hash, after_hash}` and
reports a change. -/
def detect (s : GraphState) (kind : NodeKind) (id : String) (p : NodePayload)
    (cid reason : String) (now : Nat) : Bool × GraphState :=
  let after := fingerprint p
  match lastRecordedFp s kind id with
  | some hprev =>
      if hprev = after then (false, s)
      else
        (true, { s with changes :=
          { id := cid, label := kind, node_id := id, before_hash := some hprev,
            after_hash := after, reason := reason, at_time := now } :: s.changes })
  | none =>
      (true, { s with changes :=
        { id := cid, label := kind, node_id := id, before_hash := none,
          after_hash := after, reason := reason, at_time := now } :: s.changes })

/-- C6: when the most recently recorded fingerprint for `(kind, id)` equals
`fingerprint(payload)`, `detect` reports `changed = false` and performs no
writes; when it is absent or different, `detect` reports `changed = true`
and prepends exactly one Change record whose `before_hash` is the previous
recorded fingerprint (absent included) and whose `after_hash` is
`fingerprint(payload)`, leaving nodes and containment untouched. -/
theorem detect_spec (s : GraphState) (kind : NodeKind) (id : String) (p : NodePayload)
    (cid reason : String) (now : Nat) :
    (lastRecordedFp s kind id = some (fingerprint p) →
      detect s kind id p cid reason now = (false, s)) ∧
    (lastRecordedFp s kind id ≠ some (fingerprint p) →
      (detect s kind id p cid reason now).fst = true ∧
      ∃ c, (detect s kind id p cid reason now).snd.changes = c :: s.changes ∧
        c.before_hash = lastRecordedFp s kind id ∧
        c.after_hash = fingerprint p ∧
        (detect s kind id p cid reason now).snd.nodes = s.nodes ∧
        (detect s kind id p cid reason now).snd.containment = s.containment) := by
  constructor
  · intro hsame
    simp [detect, hsame]
  · intro hdiff
    cases hlast : lastRecordedFp s kind id with
    | none =>
        refine ⟨by simp [detect, hlast], ?_⟩
        refine ⟨{ id := cid, label := kind, node_id := id, before_hash := none,
                  after_hash := fingerprint p, reason := reason, at_time := now },
                ?_, ?_, ?_, ?_, ?_⟩
        · simp [detect, hlast]
        · simp [hlast]
        · rfl
        · simp [detect, hlast]
        · simp [detect, hlast]
    | some hprev =>
        have hne : hprev ≠ fingerprint p := by
          intro he
          exact hdiff (by rw [hlast, he])
        refine ⟨by simp [detect, hlast, hne], ?_⟩
        refine ⟨{ id := cid, label := kind, node_id := id, before_hash := some hprev,
                  after_hash := fingerprint p, reason := reason, at_time := now },
                ?_, ?_, ?_, ?_, ?_⟩
        · simp [detect, hlast, hne]
        · simp [hlast]
        · rfl
        · simp [detect, hlast, hne]
        · simp [detect, hlast, hne]

/-- Witness for C6 at concrete inputs: a store whose latest Change for
`(UserStory, US_001)` records the fingerprint of payload `H1`.  Re-detecting
the same payload reports no change and no write; detecting a different
payload reports a change. -/
theorem detect_spec_witness :
    detect
      { nodes := [], containment := [],
        changes := [{ id := "CHG_1", label := NodeKind.userStory, node_id := "US_001",
                      before_hash := none,
                      after_hash := fingerprint { id := "US_001", attrs := [("storyText", "H1")],
                                                  parent := none },
                      reason := "initial", at_time := 0 }] }
      NodeKind.userStory "US_001"
      { id := "US_001", attrs := [("storyText", "H1")], parent := none }
      "CHG_2" "re-upsert" 1 =
      (false,
        { nodes := [], containment := [],
          changes := [{ id := "CHG_1", label := NodeKind.userStory, node_id := "US_001",
                        before_hash := none,
                        after_hash := fingerprint { id := "US_001", attrs := [("storyText", "H1")],
                                                    parent := none },
                        reason := "initial", at_time := 0 }] }) :=
  (detect_spec _ NodeKind.userStory "US_001"
    { id := "US_001", attrs := [("storyText", "H1")], parent := none } "CHG_2" "re-upsert" 1).1
    (by rfl)

/-! ### Dirty marking -/

/-- Modelled from the spec: `mark(ids, kind, reason)` (§4.5; the Python
dirty marker is not in the source tree).  Sets `dirty = true`,
`dirty_reason = reason` and `dirty_at = now` on every node whose id is in
`ids`; under the v1.1 global-unique id policy the lookup omits the label.
Re-marking overwrites reason and timestamp without error. -/
def markDirty (s : GraphState) (ids : List String) (reason : String) (now : Nat) : GraphState :=
  { s with nodes := s.nodes.map (fun n =>
      if ids.contains n.id then
        { n with dirty := some true, dirty_reason := some reason, dirty_at := some now }
      else n) }

/-- Modelled from the spec: `clear(ids, kind)` (§4.5, and the
`REMOVE n.dirty, n.dirty_reason, n.dirty_at` Cypher of the test scripts):
removes all three dirty fields atomically on every node whose id is in
`ids`. -/
def clearDirty (s : GraphState) (ids : List String) : GraphState :=
  { s with nodes := s.nodes.map (fun n =>
      if ids.contains n.id then
        { n with dirty := none, dirty_reason := none, dirty_at := none }
      else n) }

/-- The dirty-state invariant of the data model (§3): the three dirty
fields are present together or absent together. -/
def dirtyAtomic (n : StoredNode) : Prop :=
  (n.dirty.isSome ∧ n.dirty_reason.isSome ∧ n.dirty_at.isSome) ∨
  (n.dirty = none ∧ n.dirty_reason = none ∧ n.dirty_at = none)

/-- C7: `mark` and `clear` preserve the all-three-or-none dirty invariant on
every node, and after `mark` followed by `clear` on the same id set no node
of that set retains any of `dirty`, `dirty_reason`, `dirty_at`. -/
theorem mark_clear_dirty_atomic (s : GraphState) (ids : List String) (reason : String)
    (now : Nat) :
    ((∀ n ∈ s.nodes, dirtyAtomic n) →
      (∀ n ∈ (markDirty s ids reason now).nodes, dirtyAtomic n) ∧
      (∀ n ∈ (clearDirty s ids).nodes, dirtyAtomic n)) ∧
    (∀ n ∈ (clearDirty (markDirty s ids reason now) ids).nodes, ids.contains n.id = true →
      n.dirty = none ∧ n.dirty_reason = none ∧ n.dirty_at = none) := by
  constructor
  · intro hinv
    constructor
    · intro n hn
      rcases List.mem_map.mp hn with ⟨m, hm, rfl⟩
      by_cases hc : ids.contains m.id = true
      · simp only [hc, if_true]
        exact Or.inl (by simp)
      · simp only [hc, if_false, Bool.false_eq_true]
        exact hinv m hm
    · intro n hn
      rcases List.mem_map.mp hn with ⟨m, hm, rfl⟩
      by_cases hc : ids.contains m.id = true
      · simp only [hc, if_true]
        exact Or.inr (by simp)
      · simp only [hc, if_false, Bool.false_eq_true]
        exact hinv m hm
  · intro n hn hmem
    rcases List.mem_map.mp hn with ⟨m, hm, rfl⟩
    by_cases hc : m.id ∈ ids
    · simp [hc]
    · rw [if_neg (by simpa using hc)] at hmem
      exact absurd (by simpa using hmem) hc

/-- Witness for C7 at a concrete input: one `AGG_ORDER` node with a clean
store satisfies the invariant hypothesis, and marking then clearing
`["AGG_ORDER"]` leaves it without any dirty field. -/
theorem mark_clear_dirty_atomic_witness :
    (∀ n ∈ (markDirty
        { nodes := [{ kind := NodeKind.aggregate, id := "AGG_ORDER", attrs := [], fp := 0,
                      dirty := none, dirty_reason := none, dirty_at := none }],
          containment := [], changes := [] } ["AGG_ORDER"] "story changed" 5).nodes,
      dirtyAtomic n) ∧
    (∀ n ∈ (clearDirty (markDirty
        { nodes := [{ kind := NodeKind.aggregate, id := "AGG_ORDER", attrs := [], fp := 0,
                      dirty := none, dirty_reason := none, dirty_at := none }],
          containment := [], changes := [] } ["AGG_ORDER"] "story changed" 5)
        ["AGG_ORDER"]).nodes,
      n.dirty = none ∧ n.dirty_reason = none ∧ n.dirty_at = none) := by
  constructor
  · exact ((mark_clear_dirty_atomic _ ["AGG_ORDER"] "story changed" 5).1
      (by intro n hn; simp at hn; subst hn; exact Or.inr (by simp))).1
  · intro n hn
    have hn' : n = { kind := NodeKind.aggregate, id := "AGG_ORDER", attrs := [], fp := 0,
                     dirty := none, dirty_reason := none, dirty_at := none } := by
      simpa [clearDirty, markDirty] using hn
    exact (mark_clear_dirty_atomic _ ["AGG_ORDER"] "story changed" 5).2 n hn
      (by rw [hn']; rfl)

end SddStore

namespace SddRun

/-- Run status per the data model (§3): `queued → running → {completed | failed}`. -/
inductive RunStatus where
  | queued
  | running
  | completed
  | failed
deriving DecidableEq, Repr

/-- Terminal statuses accept no further mutation. -/
def RunStatus.isTerminal : RunStatus → Bool
  | .completed => true
  | .failed => true
  | _ => false

/-- Position of a status along the monotone chain. -/
def RunStatus.rank : RunStatus → Nat
  | .queued => 0
  | .running => 1
  | .completed => 2
  | .failed => 2

/-- Modelled from the spec: a Run record (§3, §4.8; the Python run tracker
is not in the source tree) — `{id, phase, agent, status, started_at,
ended_at}` plus the node ids its `TOUCHED` edges point at. -/
structure Run where
  id : String
  phase : String
  agent : String
  status : RunStatus
  touched : List String
  started_at : Nat
  ended_at : Option Nat
deriving DecidableEq, Repr

/-- The run-tracking store. -/
structure RunState where
  runs : List Run
deriving DecidableEq, Repr

/-- Errors raised by the Run Tracker. -/
inductive RunErr where
  | invalidPhaseSequence
  | notFound
deriving DecidableEq, Repr

/-- Lookup of a Run by identifier. -/
def findRun (st : RunState) (id : String) : Option Run :=
  st.runs.find? (fun r => r.id = id)

/-- Rewrite the runs whose identifier matches. -/
def updateRun (st : RunState) (id : String) (f : Run → Run) : RunState :=
  { runs := st.runs.map (fun r => if r.id = id then f r else r) }

/-- Modelled from the spec: `start(phase, agent)` (§4.8) — creates a Run in
the `queued` state with no touches. -/
def startRun (st : RunState) (id phase agent : String) (now : Nat) : RunState :=
  { runs := st.runs ++ [{ id := id, phase := phase, agent := agent, status := RunStatus.queued,
                          touched := [], started_at := now, ended_at := none }] }

/-- Modelled from the spec: the `queued → running` transition recorded when
the worker picks the Run up (§3 status chain, job-queue sync spec §4.3). -/
def beginRun (st : RunState) (id : String) : Except RunErr RunState :=
  match findRun st id with
  | none => .error .notFound
  | some r =>
      if r.status = RunStatus.queued then
        .ok (updateRun st id (fun r => { r with status := RunStatus.running }))
      else .error .invalidPhaseSequence

/-- Modelled from the spec: `touch(runId, nodeIds)` (§4.8) — appends
`TOUCHED` targets; a Run in a terminal state accepts no further touches. -/
def touchRun (st : RunState) (id : String) (nodeIds : List String) : Except RunErr RunState :=
  match findRun st id with
  | none => .error .notFound
  | some r =>
      if r.status.isTerminal then .error .invalidPhaseSequence
      else .ok (updateRun st id (fun r => { r with touched := r.touched ++ nodeIds }))

/-- Modelled from the spec: `finish(runId, status)` (§4.8) — sets the
terminal state and `ended_at`; fails with `InvalidPhaseSequence` when the
Run is already terminal (or when the requested status is not terminal). -/
def finishRun (st : RunState) (id : String) (status : RunStatus) (now : Nat) :
    Except RunErr RunState :=
  match findRun st id with
  | none => .error .notFound
  | some r =>
      if r.status.isTerminal then .error .invalidPhaseSequence
      else if status.isTerminal then
        .ok (updateRun st id (fun r => { r with status := status, ended_at := some now }))
      else .error .invalidPhaseSequence

/-- One operation of the Run Tracker surface. -/
inductive RunOp where
  | startOp (id phase agent : String) (now : Nat)
  | beginOp (id : String)
  | touchOp (id : String) (nodeIds : List String)
  | finishOp (id : String) (status : RunStatus) (now : Nat)

/-- Apply one Run Tracker operation. -/
def applyRunOp (st : RunState) : RunOp → Except RunErr RunState
  | .startOp id phase agent now => .ok (startRun st id phase agent now)
  | .beginOp id => beginRun st id
  | .touchOp id nodeIds => touchRun st id nodeIds
  | .finishOp id status now => finishRun st id status now

/-- A status change along the monotone chain of §3: unchanged, the
`queued → running` step, or a non-terminal status reaching a terminal one. -/
def statusForward (a b : RunStatus) : Prop :=
  a = b ∨ (a = RunStatus.queued ∧ b = RunStatus.running) ∨
    (a.isTerminal = false ∧ b.isTerminal = true)

theorem find?_append_some {α : Type} {p : α → Bool} {l₁ : List α} (l₂ : List α) {a : α}
    (h : l₁.find? p = some a) : (l₁ ++ l₂).find? p = some a := by
  induction l₁ with
  | nil => simp [List.find?] at h
  | cons x xs ih =>
      by_cases hx : p x = true
      · rw [List.find?_cons_of_pos _ hx] at h
        rw [List.cons_append, List.find?_cons_of_pos _ hx]
        exact h
      · rw [List.find?_cons_of_neg _ (by simpa using hx)] at h
        rw [List.cons_append, List.find?_cons_of_neg _ (by simpa using hx)]
        exact ih h

theorem find?_map_preserving (runs : List Run) (g : Run → Run)
    (hg : ∀ r, (g r).id = r.id) (id : String) :
    (runs.map g).find? (fun r => r.id = id) =
      (runs.find? (fun r => r.id = id)).map g := by
  induction runs with
  | nil => rfl
  | cons x xs ih =>
      by_cases hx : x.id = id
      · rw [List.map_cons, List.find?_cons_of_pos _ (by simp [hg x, hx]),
           List.find?_cons_of_pos _ (by simp [hx])]
        rfl
      · rw [List.map_cons, List.find?_cons_of_neg _ (by simp [hg x, hx]),
           List.find?_cons_of_neg _ (by simp [hx]), ih]

theorem findRun_id {st : RunState} {id : String} {r : Run} (h : findRun st id = some r) :
    r.id = id := by
  have := List.find?_some h
  simpa using this

theorem findRun_updateRun (st : RunState) (tid : String) (f : Run → Run)
    (hf : ∀ r, (f r).id = r.id) (id : String) :
    findRun (updateRun st tid f) id =
      (findRun st id).map (fun r => if r.id = tid then f r else r) := by
  unfold findRun updateRun
  exact find?_map_preserving st.runs _ (fun r => by by_cases hr : r.id = tid <;> simp [hr, hf r]) id

/-- C8: the status of a Run only ever moves forward along
`queued → running → {completed | failed}` under every Run Tracker
operation; a Run in a terminal state accepts no further `touch` additions
(the call fails with `InvalidPhaseSequence`); and calling `finish` on an
already-terminal Run fails with `InvalidPhaseSequence`. -/
theorem run_status_monotone (st : RunState) (id : String) :
    (∀ op st' r r', applyRunOp st op = Except.ok st' →
      findRun st id = some r → findRun st' id = some r' →
      statusForward r.status r'.status) ∧
    (∀ nodeIds r, findRun st id = some r → r.status.isTerminal = true →
      touchRun st id nodeIds = Except.error RunErr.invalidPhaseSequence) ∧
    (∀ status now r, findRun st id = some r → r.status.isTerminal = true →
      finishRun st id status now = Except.error RunErr.invalidPhaseSequence) := by
  refine ⟨?_, ?_, ?_⟩
  · intro op st' r r' hap hf hf'
    cases op with
    | startOp tid phase agent now =>
        simp only [applyRunOp] at hap
        have hst : st' = startRun st tid phase agent now := (Except.ok.inj hap).symm
        subst hst
        have hkeep : findRun (startRun st tid phase agent now) id = some r := by
          unfold findRun startRun
          exact find?_append_some _ hf
        rw [hkeep] at hf'
        obtain rfl := Option.some.inj hf'
        exact Or.inl rfl
    | beginOp tid =>
        simp only [applyRunOp] at hap
        cases hf0 : findRun st tid with
        | none => simp [beginRun, hf0] at hap
        | some r0 =>
            simp only [beginRun, hf0] at hap
            by_cases hq : r0.status = RunStatus.queued
            · rw [if_pos hq] at hap
              have hst : st' = updateRun st tid
                  (fun r => { r with status := RunStatus.running }) :=
                (Except.ok.inj hap).symm
              subst hst
              rw [findRun_updateRun st tid
                    (fun r => { r with status := RunStatus.running }) (fun r => rfl) id,
                  hf] at hf'
              simp only [Option.map_some', Option.some.injEq] at hf'
              by_cases hrid : r.id = tid
              · have hid : id = tid := by
                  have hri := findRun_id hf
                  rw [← hri]; exact hrid
                have hrr0 : r = r0 := by
                  apply Option.some.inj
                  rw [← hf0, ← hid]
                  exact hf.symm
                rw [if_pos hrid] at hf'
                rw [← hf']
                exact Or.inr (Or.inl ⟨hrr0 ▸ hq, rfl⟩)
              · rw [if_neg hrid] at hf'
                rw [← hf']
                exact Or.inl rfl
            · rw [if_neg hq] at hap
              simp at hap
    | touchOp tid nodeIds =>
        simp only [applyRunOp] at hap
        cases hf0 : findRun st tid with
        | none => simp [touchRun, hf0] at hap
        | some r0 =>
            simp only [touchRun, hf0] at hap
            by_cases hterm : r0.status.isTerminal = true
            · rw [if_pos hterm] at hap
              simp at hap
            · rw [if_neg hterm] at hap
              have hst : st' = updateRun st tid
                  (fun r => { r with touched := r.touched ++ nodeIds }) :=
                (Except.ok.inj hap).symm
              subst hst
              rw [findRun_updateRun st tid
                    (fun r => { r with touched := r.touched ++ nodeIds }) (fun r => rfl) id,
                  hf] at hf'
              simp only [Option.map_some', Option.some.injEq] at hf'
              by_cases hrid : r.id = tid
              · rw [if_pos hrid] at hf'
                rw [← hf']
                exact Or.inl rfl
              · rw [if_neg hrid] at hf'
                rw [← hf']
                exact Or.inl rfl
    | finishOp tid status now =>
        simp only [applyRunOp] at hap
        cases hf0 : findRun st tid with
        | none => simp [finishRun, hf0] at hap
        | some r0 =>
            simp only [finishRun, hf0] at hap
            by_cases hterm : r0.status.isTerminal = true
            · rw [if_pos hterm] at hap
              simp at hap
            · rw [if_neg hterm] at hap
              by_cases hts : status.isTerminal = true
              · rw [if_pos hts] at hap
                have hst : st' = updateRun st tid
                    (fun r => { r with status := status, ended_at := some now }) :=
                  (Except.ok.inj hap).symm
                subst hst
                rw [findRun_updateRun st tid
                      (fun r => { r with status := status, ended_at := some now })
                      (fun r => rfl) id,
                    hf] at hf'
                simp only [Option.map_some', Option.some.injEq] at hf'
                by_cases hrid : r.id = tid
                · have hid : id = tid := by
                    have hri := findRun_id hf
                    rw [← hri]; exact hrid
                  have hrr0 : r = r0 := by
                    apply Option.some.inj
                    rw [← hf0, ← hid]
                    exact hf.symm
                  rw [if_pos hrid] at hf'
                  rw [← hf']
                  exact Or.inr (Or.inr ⟨hrr0 ▸ Bool.eq_false_iff.mpr hterm, hts⟩)
                · rw [if_neg hrid] at hf'
                  rw [← hf']
                  exact Or.inl rfl
              · rw [if_neg hts] at hap
                simp at hap
  · intro nodeIds r hf hterm
    simp [touchRun, hf, hterm]
  · intro status now r hf hterm
    simp [finishRun, hf, hterm]

/-- A store with one completed Run, for the C8 witness. -/
def terminalRunState : RunState :=
  { runs := [{ id := "RUN_1", phase := "A", agent := "aggregate-draft", status := RunStatus.completed,
               touched := ["AGG_ORDER"], started_at := 0, ended_at := some 1 }] }

/-- Witness for C8 at a concrete input: both `touch` and `finish` on an
already-completed Run fail with `InvalidPhaseSequence`. -/
theorem run_status_monotone_witness :
    touchRun terminalRunState "RUN_1" ["F_ORDER_AMOUNT"] =
      Except.error RunErr.invalidPhaseSequence ∧
    finishRun terminalRunState "RUN_1" RunStatus.failed 2 =
      Except.error RunErr.invalidPhaseSequence :=
  ⟨(run_status_monotone terminalRunState "RUN_1").2.1 ["F_ORDER_AMOUNT"] _ rfl rfl,
   (run_status_monotone terminalRunState "RUN_1").2.2 RunStatus.failed 2 _ rfl rfl⟩

end SddRun

namespace Frontend

/-- One ReAct trace step of the model-modifier store: `type` is
`"thought"`, `"action"` or `"observation"`; `action` is the action name,
present only on action steps. -/
structure ReactStep where
  type : String
  content : String
  action : Option String
deriving DecidableEq, Repr

/-- Faithful embedding of `upsertReactStep` from the model-modifier store: streaming
thought/action/observation events arrive token by token, so pushing each
one would pile up lines; when the last step has the same type (and, for
action steps, the same action name) its content is updated in place,
otherwise the step is pushed. -/
def upsertReactStep (list : List ReactStep) (next : ReactStep) : List ReactStep :=
  match list.getLast? with
  | none => list ++ [next]
  | some last =>
      let sameType := last.type == next.type
      let sameAction := next.type != "action" || (last.action == next.action)
      if sameType && sameAction then
        list.dropLast ++
          [{ last with content := next.content,
                       action := if next.type == "action" then next.action else last.action }]
      else
        list ++ [next]

/-- Adjacency invariant of a ReAct step list: two neighbouring entries
never have the same type, except two action entries whose action names
differ. -/
def stepAdjOk (a b : ReactStep) : Prop :=
  a.type ≠ b.type ∨ (a.type = "action" ∧ b.type = "action" ∧ a.action ≠ b.action)

theorem stepAdjOk_congr {x a b : ReactStep} (ht : b.type = a.type) (ha : b.action = a.action)
    (h : stepAdjOk x a) : stepAdjOk x b := by
  unfold stepAdjOk at h ⊢
  rw [ht, ha]
  exact h

/-- C9: `upsertReactStep` preserves the adjacency invariant of every ReAct
step list (the global `reactTrace` and the `reactSteps` list
of each assistant message): no two adjacent entries share a type except two action
entries with different action names.  When the incoming step has the same
type as the last entry (and, for action steps, the same action name), the
content of the last entry is overwritten in place: the length does not grow, the
prefix is untouched and the last content becomes the incoming content. -/
theorem upsertReactStep_invariant (list : List ReactStep) (next : ReactStep)
    (hinv : List.Chain' stepAdjOk list) :
    List.Chain' stepAdjOk (upsertReactStep list next) ∧
    (∀ last, list.getLast? = some last → last.type = next.type →
      (next.type = "action" → last.action = next.action) →
      (upsertReactStep list next).length = list.length ∧
      (upsertReactStep list next).dropLast = list.dropLast ∧
      ((upsertReactStep list next).getLast?).map (fun s => s.content) = some next.content) := by
  cases hl : list.getLast? with
  | none =>
      have hnil : list = [] := by
        cases list with
        | nil => rfl
        | cons x xs => simp at hl
      subst hnil
      constructor
      · simp only [upsertReactStep]
        simp
      · intro last hlast
        simp at hlast
  | some last0 =>
      have hne : list ≠ [] := by
        intro h
        subst h
        simp at hl
      have hdecomp : list.dropLast ++ [last0] = list := by
        have h1 : list.getLast hne = last0 := by
          have h2 := List.getLast?_eq_getLast list hne
          rw [hl] at h2
          exact (Option.some.inj h2).symm
        rw [← h1]
        exact List.dropLast_append_getLast hne
      by_cases hcond :
          (last0.type == next.type && (next.type != "action" || (last0.action == next.action)))
            = true
      · have hup : upsertReactStep list next =
            list.dropLast ++
              [{ last0 with content := next.content,
                            action := if next.type == "action" then next.action
                                      else last0.action }] := by
          simp only [upsertReactStep, hl]
          rw [if_pos hcond]
        have hand := hcond
        rw [Bool.and_eq_true] at hand
        obtain ⟨h1c, h2c⟩ := hand
        have hT : last0.type = next.type := eq_of_beq h1c
        have hA : next.type = "action" → last0.action = next.action := by
          intro ha
          rw [Bool.or_eq_true] at h2c
          rcases h2c with h3 | h3
          · exact absurd ha (bne_iff_ne.mp h3)
          · exact eq_of_beq h3
        have hnewA :
            ({ last0 with content := next.content,
                          action := if next.type == "action" then next.action
                                    else last0.action } : ReactStep).action = last0.action := by
          by_cases hb : next.type = "action"
          · simp [hb, hA hb]
          · simp [hb]
        constructor
        · rw [hup]
          rw [← hdecomp] at hinv
          obtain ⟨hc1, _, hc3⟩ := List.chain'_append.mp hinv
          refine List.chain'_append.mpr ⟨hc1, List.chain'_singleton _, ?_⟩
          intro x hx y hy
          have hyEq : ∀ z : ReactStep, y ∈ [z].head? → y = z := by
            intro z hz
            simp only [List.head?_cons, Option.mem_def, Option.some.injEq] at hz
            exact hz.symm
          obtain rfl := hyEq _ hy
          exact stepAdjOk_congr (a := last0) rfl hnewA (hc3 x hx last0 (by simp))
        · intro last hlast hTy hAc
          have hlast0 : last = last0 := (Option.some.inj hlast).symm
          subst hlast0
          rw [hup]
          refine ⟨?_, List.dropLast_concat .., ?_⟩
          · rw [List.length_append]
            have hlen := List.length_dropLast list
            have hpos : 0 < list.length := List.length_pos.mpr hne
            simp only [hlen, List.length_cons, List.length_nil]
            omega
          · rw [List.getLast?_concat]
            rfl
      · have hup : upsertReactStep list next = list ++ [next] := by
          simp only [upsertReactStep, hl]
          rw [if_neg hcond]
        have hcond' :
            (last0.type == next.type && (next.type != "action" || (last0.action == next.action)))
              = false := Bool.eq_false_iff.mpr hcond
        have hadj : stepAdjOk last0 next := by
          by_cases hst : (last0.type == next.type) = true
          · rw [hst, Bool.true_and] at hcond'
            have h3c : (next.type != "action") = false := by
              revert hcond'
              cases hna : (next.type != "action") <;> simp
            have h4c : (last0.action == next.action) = false := by
              rw [h3c, Bool.false_or] at hcond'
              exact hcond'
            have hnt : next.type = "action" := by
              simpa using h3c
            exact Or.inr ⟨(eq_of_beq hst).trans hnt, hnt, ne_of_beq_false h4c⟩
          · exact Or.inl fun he => hst (beq_iff_eq.mpr he)
        constructor
        · rw [hup, ← hdecomp]
          rw [← hdecomp] at hinv
          obtain ⟨hc1, _, hc3⟩ := List.chain'_append.mp hinv
          refine List.chain'_append.mpr
            ⟨List.chain'_append.mpr ⟨hc1, List.chain'_singleton _, hc3⟩,
             List.chain'_singleton _, ?_⟩
          intro x hx y hy
          rw [List.getLast?_concat] at hx
          simp at hx hy
          subst hx
          subst hy
          exact hadj
        · intro last hlast hTy hAc
          exfalso
          have hlast0 : last = last0 := (Option.some.inj hlast).symm
          subst hlast0
          apply hcond
          rw [Bool.and_eq_true]
          refine ⟨beq_iff_eq.mpr hTy, ?_⟩
          rw [Bool.or_eq_true]
          by_cases hb : next.type = "action"
          · exact Or.inr (beq_iff_eq.mpr (hAc hb))
          · exact Or.inl (bne_iff_ne.mpr hb)

/-- Witness for C9 at a concrete input: a second streamed token of the same
thought overwrites the single-entry trace in place — the invariant holds
afterwards and the list does not grow. -/
theorem upsertReactStep_invariant_witness :
    List.Chain' stepAdjOk
      (upsertReactStep [{ type := "thought", content := "par", action := none }]
        { type := "thought", content := "partial", action := none }) ∧
    (upsertReactStep [{ type := "thought", content := "par", action := none }]
        { type := "thought", content := "partial", action := none }).length = 1 :=
  ⟨(upsertReactStep_invariant _ _ (List.chain'_singleton _)).1,
   ((upsertReactStep_invariant _ _ (List.chain'_singleton _)).2
      { type := "thought", content := "par", action := none } rfl rfl
      (fun h => absurd h (by decide))).1⟩

/-! ### The model-modifier store: `sendMessage` -/

/-- A canvas node selected when a message is sent (the summary the store
keeps on the user message and posts to the API). -/
structure SelNode where
  id : String
  name : String
  ntype : String
deriving DecidableEq, Repr

/-- One chat message of the store.  JavaScript message objects carry only
some of these fields; absent ones are the defaults. -/
structure ChatMessage where
  id : Nat
  mtype : String
  content : String
  selectedNodes : List SelNode := []
  changes : List String := []
  reactSteps : List ReactStep := []
  isError : Bool := false
  isComplete : Bool := false
  timestamp : String := ""
deriving DecidableEq, Repr

/-- One POST to `/api/chat/modify`: prompt, selected-node context and the
last ten messages of history. -/
structure ModifierRequest where
  prompt : String
  selectedNodes : List SelNode
  history : List ChatMessage
deriving DecidableEq, Repr

/-- A parsed SSE stream event of the modification API. -/
inductive StreamEvent where
  | thought (content : String)
  | action (content : String) (name : Option String)
  | observation (content : String)
  | change (change : String)
  | contentDelta (content : String)
  | complete (summary : Option String)
  | errorEvent (message : String)
deriving DecidableEq, Repr

/-- The reactive state of the model-modifier store, plus the list of
requests it has issued (the network effect) and the id counter behind
`generateId`. -/
structure ModifierState where
  messages : List ChatMessage
  isProcessing : Bool
  currentThought : String
  currentAction : String
  streamingContent : String
  reactTrace : List ReactStep
  error : Option String
  appliedChanges : List String
  requests : List ModifierRequest
  nextId : Nat
deriving DecidableEq, Repr

/-- Environment of the store for one call: the canvas selection, the parsed
response of the single fetch, and the clock. -/
structure ModifierEnv where
  selectedNodes : List SelNode
  response : Except String (List StreamEvent)
  now : String
deriving Repr

/-- Fresh message id, the `generateId` helper modelled as a counter. -/
def generateId (st : ModifierState) : Nat × ModifierState :=
  (st.nextId, { st with nextId := st.nextId + 1 })

/-- Replacement of the message found by id, if any, as in `updateLastAssistantMessage`. -/
def replaceById : List ChatMessage → ChatMessage → List ChatMessage
  | [], _ => []
  | m :: rest, am => if m.id = am.id then am :: rest else m :: replaceById rest am

/-- The store-level `updateLastAssistantMessage`. -/
def updateLastAssistantMessage (st : ModifierState) (am : ChatMessage) : ModifierState :=
  { st with messages := replaceById st.messages am }

/-- Stream-event handling of the store (`handleStreamEvent`): updates the reactive state and the
in-flight assistant message per event.  The canvas synchronisation of the
`complete` event is external to this store. -/
def handleStreamEvent (ev : StreamEvent) (st : ModifierState) (am : ChatMessage) :
    ModifierState × ChatMessage :=
  match ev with
  | .thought c =>
      ({ st with currentThought := c,
                 reactTrace := upsertReactStep st.reactTrace
                   { type := "thought", content := c, action := none } },
       { am with reactSteps := upsertReactStep am.reactSteps
                   { type := "thought", content := c, action := none } })
  | .action c a =>
      ({ st with currentAction := c,
                 reactTrace := upsertReactStep st.reactTrace
                   { type := "action", content := c, action := a } },
       { am with reactSteps := upsertReactStep am.reactSteps
                   { type := "action", content := c, action := a } })
  | .observation c =>
      ({ st with reactTrace := upsertReactStep st.reactTrace
                   { type := "observation", content := c, action := none } },
       { am with reactSteps := upsertReactStep am.reactSteps
                   { type := "observation", content := c, action := none } })
  | .change c =>
      ({ st with appliedChanges := st.appliedChanges ++ [c] },
       { am with changes := am.changes ++ [c] })
  | .contentDelta c =>
      ({ st with streamingContent := am.content ++ c },
       { am with content := am.content ++ c })
  | .complete summary =>
      (st, { am with content := summary.getD am.content, isComplete := true })
  | .errorEvent m =>
      ({ st with error := some m },
       { am with content := "오류: " ++ m, isError := true })

/-- The last ten messages, as in `messages.slice(-10)`. -/
def lastTen (l : List ChatMessage) : List ChatMessage := l.drop (l.length - 10)

/-- Faithful embedding of `processModificationRequest`: posts the request, then —
unless the fetch failed — pushes the assistant message and folds the stream
events through `handleStreamEvent`, mirroring the per-event
`updateLastAssistantMessage` calls.  Returns the new state and the error
message of a failed fetch, if any. -/
def processModificationRequest (st : ModifierState) (env : ModifierEnv) (prompt : String)
    (selectedNodes : List SelNode) : ModifierState × Option String :=
  let st1 := { st with requests := st.requests ++
    [{ prompt := prompt, selectedNodes := selectedNodes, history := lastTen st.messages }] }
  match env.response with
  | .error e => (st1, some e)
  | .ok events =>
      let p1 := generateId st1
      let am0 : ChatMessage := { id := p1.fst, mtype := "assistant", content := "",
                                 changes := [], reactSteps := [], timestamp := env.now }
      let st2 := { p1.snd with messages := p1.snd.messages ++ [am0] }
      let p2 := events.foldl
        (fun (p : ModifierState × ChatMessage) ev =>
          let q := handleStreamEvent ev p.fst p.snd
          (updateLastAssistantMessage q.fst q.snd, q.snd))
        (st2, am0)
      (updateLastAssistantMessage p2.fst p2.snd, none)

/-- The whitespace class trimmed by JavaScript `String.prototype.trim`:
the ECMAScript WhiteSpace code points — TAB, VT, FF, SPACE, NBSP, ZWNBSP
and the Space_Separator category (U+1680, U+2000 through U+200A, U+202F,
U+205F, U+3000) — and the LineTerminator code points LF, CR, LS (U+2028)
and PS (U+2029). -/
def jsWhitespace (c : Char) : Bool :=
  c == ' ' || c == '\t' || c == '\n' || c == '\r' || c == '\x0b' || c == '\x0c' ||
  c == '\u00A0' || c == '\uFEFF' || c == '\u1680' ||
  c == '\u2000' || c == '\u2001' || c == '\u2002' || c == '\u2003' || c == '\u2004' ||
  c == '\u2005' || c == '\u2006' || c == '\u2007' || c == '\u2008' || c == '\u2009' ||
  c == '\u200A' || c == '\u2028' || c == '\u2029' || c == '\u202F' || c == '\u205F' ||
  c == '\u3000'

/-- JavaScript `content.trim()`. -/
def jsTrim (s : String) : String :=
  String.mk (((s.data.dropWhile jsWhitespace).reverse.dropWhile jsWhitespace).reverse)

/-- Faithful embedding of `sendMessage` from the model-modifier store: returns immediately when the
trimmed content is empty; posts a selection reminder when nothing is
selected on the canvas; otherwise pushes the user message, enters
processing, runs the modification request, handles a failure by recording
the error and a system message, and finally leaves processing state. -/
def sendMessage (st : ModifierState) (env : ModifierEnv) (content : String) : ModifierState :=
  if jsTrim content = "" then st
  else if env.selectedNodes.isEmpty then
    let p := generateId st
    { p.snd with messages := p.snd.messages ++
        [{ id := p.fst, mtype := "system",
           content := "먼저 캔버스에서 수정할 객체를 선택해주세요.", timestamp := env.now }] }
  else
    let p := generateId st
    let userMessage : ChatMessage :=
      { id := p.fst, mtype := "user", content := content,
        selectedNodes := env.selectedNodes, timestamp := env.now }
    let st2 := { p.snd with messages := p.snd.messages ++ [userMessage],
                            isProcessing := true, error := none, reactTrace := [],
                            streamingContent := "" }
    let r := processModificationRequest st2 env content env.selectedNodes
    match r.snd with
    | none => { r.fst with isProcessing := false, currentThought := "", currentAction := "" }
    | some e =>
        let q := generateId r.fst
        { q.snd with error := some e,
                     messages := q.snd.messages ++
                       [{ id := q.fst, mtype := "system",
                          content := "오류가 발생했습니다: " ++ e, isError := true,
                          timestamp := env.now }],
                     isProcessing := false, currentThought := "", currentAction := "" }

/-- C10: for every content string whose JavaScript-trimmed form is empty,
`sendMessage` returns immediately with the state untouched — messages,
`isProcessing`, `error`, `reactTrace`, `streamingContent`,
`appliedChanges`, and the list of issued requests are all exactly those of
the input state, so no network request is made. -/
theorem sendMessage_empty_noop (st : ModifierState) (env : ModifierEnv) (content : String)
    (h : jsTrim content = "") :
    sendMessage st env content = st := by
  unfold sendMessage
  rw [if_pos h]

/-- An arbitrary concrete store state for the C10 witness. -/
def witnessModifierState : ModifierState :=
  { messages := [{ id := 0, mtype := "user", content := "rename the field" }],
    isProcessing := false, currentThought := "", currentAction := "",
    streamingContent := "", reactTrace := [], error := none,
    appliedChanges := ["change-1"], requests := [], nextId := 1 }

/-- A concrete environment for the C10 witness. -/
def witnessEnv : ModifierEnv :=
  { selectedNodes := [{ id := "AGG_ORDER", name := "Order", ntype := "aggregate" }],
    response := Except.ok [], now := "2025-01-01T00:00:00Z" }

/-- Witness for C10 at a concrete input: whitespace-only content — mixing
ASCII whitespace with the LS line terminator (U+2028) and an em space
(U+2003) — leaves the store untouched. -/
theorem sendMessage_empty_noop_witness :
    sendMessage witnessModifierState witnessEnv "  \t\n\u2028\u2003 " = witnessModifierState :=
  sendMessage_empty_noop witnessModifierState witnessEnv "  \t\n\u2028\u2003 " (by decide)

end Frontend
